import Mathlib

/-!
Verification of the colprint column formatter: a shallow embedding of
`parse_format_string` and `format_columns` from `src/column_formatter.rs`,
together with the supporting data types from `src/format_type.rs`,
`src/column_format.rs`, `src/format_part.rs` and `src/formattable_item.rs`.

Rust strings are modelled as lists of Unicode scalar values (`List Char`),
matching how the Rust code iterates (`char_indices`) and measures length
(`chars().count()`).  The byte-level checks in the source (`format_bytes[i]
== b':'`, `is_ascii_digit`) coincide with the scalar-level checks because
`:` and the ASCII digits are single-byte scalars and the first byte of a
multi-byte scalar is never an ASCII byte.
-/

namespace Colprint

/-- The formatting modes of `FormatType` in `src/format_type.rs`. -/
inductive FormatType where
  | display
  | debug
  | prettyDebug
deriving DecidableEq, Repr

/-- `ColumnFormat` from `src/column_format.rs`: the format type of one
column, an optional explicit width, and the optional separator text printed
after the column. -/
structure ColumnFormat where
  format_type : FormatType
  width : Option Nat
  separator : Option (List Char)
deriving DecidableEq, Repr

/-- `FormatPart` from `src/format_part.rs`: a format token (the text from
`{` through `}` inclusive) with the optional width string found after the
closing brace, or separator text between tokens. -/
inductive FormatPart where
  | format (tok : List Char) (width : Option (List Char))
  | separator (s : List Char)
deriving DecidableEq, Repr

/-- Test whether `p` is a prefix of `l`, as a boolean. -/
def startsWithSeq : List Char → List Char → Bool
  | [], _ => true
  | _ :: _, [] => false
  | a :: ps, b :: ls => a == b && startsWithSeq ps ls

/-- Rust `str::contains(pat)` for a literal pattern: substring search. -/
def containsSub (p : List Char) : List Char → Bool
  | [] => p.isEmpty
  | c :: rest => startsWithSeq p (c :: rest) || containsSub p rest

/-- Mode classification in `parse_format_string`: substring containment of
`:#?` and `:?` tested on the token text (braces included). -/
def classifyTok (tok : List Char) : FormatType :=
  if containsSub ":#?".toList tok then .prettyDebug
  else if containsSub ":?".toList tok then .debug
  else .display

/-- Largest `usize` value, on a 64-bit platform. -/
def usizeMax : Nat := 2 ^ 64 - 1

/-- Numeric value of a decimal digit string. -/
def digitsToNat (ds : List Char) : Nat :=
  ds.foldl (fun n c => 10 * n + (c.toNat - '0'.toNat)) 0

/-- `str::parse::<usize>().ok()` applied to a width string: fails on the
empty string, on a non-digit character, and on overflow past `usize::MAX`.
(A leading sign, which `parse` would also accept, cannot occur here: width
strings are digit runs by construction.) -/
def parseUsize (s : List Char) : Option Nat :=
  if s ≠ [] ∧ s.all Char.isDigit ∧ digitsToNat s ≤ usizeMax then
    some (digitsToNat s)
  else none

/-- State of the scanning loop in `parse_format_string`.  The Rust loop
walks `char_indices` with an `in_format` flag and a `start_byte_idx`
cursor; here the text between the cursor and the current position is
carried explicitly, in reverse.  The lookahead that follows a closing `}`
(first for `:`, then for a digit run) becomes the `closed` and `width`
states. -/
inductive ScanState where
  | text (seg : List Char)
  | inTok (seg : List Char)
  | closed (tok : List Char)
  | width (tok : List Char) (ds : List Char)
deriving DecidableEq, Repr

/-- The scanning loop of `parse_format_string`: split the format string
into format tokens (with their width suffixes) and separator text.
In state `text`, `seg` is pending separator text; a `{` flushes it and
opens a token.  In state `inTok`, `seg` is the token text read so far
(including the opening `{`, further `{`s are ordinary token text); a `}`
closes the token.  In state `closed` a `:` starts a width suffix,
otherwise the token is emitted with no width and the character is ordinary
text again.  In state `width`, digits accumulate; the first non-digit ends
the suffix.  At the end of input, pending text from the cursor onward is
emitted as a trailing separator (this includes the text of an unterminated
`{...` token), and a pending token is emitted with its width. -/
def scan : List Char → ScanState → List FormatPart
  | [], .text seg => if seg.isEmpty then [] else [.separator seg.reverse]
  | [], .inTok seg => if seg.isEmpty then [] else [.separator seg.reverse]
  | [], .closed tok => [.format tok none]
  | [], .width tok ds => [.format tok (some ds.reverse)]
  | c :: rest, .text seg =>
      if c = '{' then
        (if seg.isEmpty then [] else [.separator seg.reverse]) ++
          scan rest (.inTok ['{'])
      else
        scan rest (.text (c :: seg))
  | c :: rest, .inTok seg =>
      if c = '}' then
        scan rest (.closed (c :: seg).reverse)
      else
        scan rest (.inTok (c :: seg))
  | c :: rest, .closed tok =>
      if c = ':' then
        scan rest (.width tok [])
      else if c = '{' then
        .format tok none :: scan rest (.inTok ['{'])
      else
        .format tok none :: scan rest (.text [c])
  | c :: rest, .width tok ds =>
      if c.isDigit then
        scan rest (.width tok (c :: ds))
      else if c = '{' then
        .format tok (some ds.reverse) :: scan rest (.inTok ['{'])
      else
        .format tok (some ds.reverse) :: scan rest (.text [c])

/-- Second pass of `parse_format_string`: turn the parts into column
formats.  A `format` part takes the immediately following part as its
separator when that part is a `separator` (in the source: `parts[i + 1]`,
guarded by `i + 1 < parts.len()`). -/
def buildFormats : List FormatPart → List ColumnFormat
  | [] => []
  | .format tok w :: rest =>
      { format_type := classifyTok tok
        width := w.bind parseUsize
        separator :=
          match rest.head? with
          | some (.separator s) => some s
          | _ => none } :: buildFormats rest
  | .separator _ :: rest => buildFormats rest

/-- `ColumnFormatter::parse_format_string` from `src/column_formatter.rs`. -/
def parse_format_string (format_str : List Char) : List ColumnFormat :=
  buildFormats (scan format_str (.text []))

/-- `FormattableItem` from `src/formattable_item.rs`: a `DisplayItem` is
characterised by the text its `Display` impl produces; a `DebugItem` by
the texts its `Debug` impl produces under `{:?}` and `{:#?}`. -/
inductive FormattableItem where
  | displayItem (s : List Char)
  | debugItem (dbg : List Char) (pretty : List Char)
deriving DecidableEq, Repr

/-- The `match (item, fmt.format_type)` in `format_columns` that renders
one item, including the fallback arms for capability mismatches: a
`DisplayItem` always renders its `Display` text, and a `DebugItem` in
`Display` mode falls back to its `{:?}` debug text. -/
def renderItem (t : FormatType) (item : FormattableItem) : List Char :=
  match item, t with
  | .displayItem s, _ => s
  | .debugItem d _, .display => d
  | .debugItem d _, .debug => d
  | .debugItem _ p, .prettyDebug => p

/-- Split on newline characters; the pieces between consecutive `\n`s,
with boundary pieces included (as `String::split` would produce). -/
def splitNL : List Char → List (List Char)
  | [] => [[]]
  | c :: rest =>
      if c = '\n' then [] :: splitNL rest
      else
        match splitNL rest with
        | [] => [[c]]
        | l :: ls => (c :: l) :: ls

/-- Strip one trailing carriage return (the `\r` of a `\r\n` terminator). -/
def stripCR (l : List Char) : List Char :=
  if l.getLast? = some '\r' then l.dropLast else l

/-- Rust `str::lines`: split on `\n`, drop the final empty piece produced
by a trailing newline, and strip the `\r` of each `\r\n` terminator.  The
final piece, present when the text does not end in `\n`, keeps a trailing
`\r` (it was not part of a terminator). -/
def linesOf (s : List Char) : List (List Char) :=
  let ps := splitNL s
  match ps.getLast? with
  | some [] => ps.dropLast.map stripCR
  | _ => ps.dropLast.map stripCR ++ [ps.getLast?.getD []]

/-- `num_items`: `min(self.formats.len(), self.items.len())`. -/
def numItems (formats : List ColumnFormat) (items : List FormattableItem) : Nat :=
  min formats.length items.length

/-- `formatted_items`: the first `num_items` (format, item) pairs, rendered
under the format type and split into lines. -/
def cellsOf (formats : List ColumnFormat) (items : List FormattableItem) :
    List (List (List Char)) :=
  ((formats.zip items).take (numItems formats items)).map
    (fun fi => linesOf (renderItem fi.1.format_type fi.2))

/-- `.max().unwrap_or(0)` over a list of lengths. -/
def maxNat (l : List Nat) : Nat := l.foldr max 0

/-- `max_lines`: the maximum line count over the rendered cells. -/
def maxLinesOf (cells : List (List (List Char))) : Nat :=
  maxNat (cells.map List.length)

/-- `column_widths`: for each of the first `n` columns, the explicit width
when present, otherwise the maximum scalar length (`line.chars().count()`)
over the column's own lines, `0` for a missing cell.  The source iterates
`formats.iter().take(n).enumerate()`; since `n ≤ formats.len()` at the call
site this visits exactly the indices below `n`. -/
def columnWidthsOf (formats : List ColumnFormat) (cells : List (List (List Char)))
    (n : Nat) : List Nat :=
  (List.range n).map
    (fun j =>
      ((formats.getD j ⟨.display, none, none⟩).width).getD
        (maxNat ((cells.getD j []).map List.length)))

/-- The widths `format_columns` computes for a given call. -/
def widthsOf (formats : List ColumnFormat) (items : List FormattableItem) :
    List Nat :=
  columnWidthsOf formats (cellsOf formats items) (numItems formats items)

/-- `*column_widths.get(item_idx).unwrap_or(&0)`. -/
def widthAt (formats : List ColumnFormat) (items : List FormattableItem)
    (j : Nat) : Nat :=
  (widthsOf formats items).getD j 0

/-- Truncate a longer line to the column width, keeping the leading
scalars; right-pad a shorter line with spaces. -/
def fitLine (w : Nat) (l : List Char) : List Char :=
  if w < l.length then l.take w else l ++ List.replicate (w - l.length) ' '

/-- The text column `j` contributes at row `i`: its own line fitted to the
column width when the cell has a line `i`, an all-space line otherwise. -/
def cellLine (formats : List ColumnFormat) (items : List FormattableItem)
    (j i : Nat) : List Char :=
  match ((cellsOf formats items).getD j [])[i]? with
  | some line => fitLine (widthAt formats items j) line
  | none => List.replicate (widthAt formats items j) ' '

/-- The separator written after column `j`: only between columns
(`item_idx < num_items - 1`), never after the last rendered column, and
nothing when the format has no separator. -/
def sepAfter (formats : List ColumnFormat) (n j : Nat) : List Char :=
  if j < n - 1 then
    match formats[j]? with
    | some f => f.separator.getD []
    | none => []
  else []

/-- One output row: each rendered column's fitted line followed by its
separator. -/
def rowAt (formats : List ColumnFormat) (items : List FormattableItem)
    (i : Nat) : List Char :=
  ((List.range (numItems formats items)).map
    (fun j => cellLine formats items j i ++
      sepAfter formats (numItems formats items) j)).flatten

/-- The output rows, without the `writeln!` newlines.  Empty when
`num_items == 0` (the early return) and when `max_lines == 0`. -/
def rowsOf (formats : List ColumnFormat) (items : List FormattableItem) :
    List (List Char) :=
  if numItems formats items = 0 then []
  else (List.range (maxLinesOf (cellsOf formats items))).map (rowAt formats items)

/-- `ColumnFormatter::format_columns` writing into an in-memory buffer:
the complete output text. -/
def format_columns (formats : List ColumnFormat) (items : List FormattableItem) :
    List Char :=
  ((rowsOf formats items).map (fun r => r ++ ['\n'])).flatten

/-- The token text of a format part, if it is one. -/
def partTok : FormatPart → Option (List Char)
  | .format tok _ => some tok
  | .separator _ => none

/-- The format tokens of a template, in order. -/
def tokensOf (cs : List Char) : List (List Char) :=
  (scan cs (.text [])).filterMap partTok

/-- The mode a token's inner text (between the braces) determines, by
substring containment. -/
def specModeOfInner (inner : List Char) : FormatType :=
  if containsSub ":#?".toList inner then .prettyDebug
  else if containsSub ":?".toList inner then .debug
  else .display

/-- Invariant carried by the scanner: the reversed token segment ends with
the opening `{`, and a pending token is brace-wrapped. -/
def stInv : ScanState → Prop
  | .text _ => True
  | .inTok seg => ∃ s, seg = s ++ ['{']
  | .closed tok => ∃ mid, tok = '{' :: mid ++ ['}']
  | .width tok _ => ∃ mid, tok = '{' :: mid ++ ['}']

/-- Sequence a list of checked computations (the loop bodies of the
source, each of which may hit a panic site, modelled as `Except`). -/
def mapE {α β : Type} (g : α → Except String β) : List α → Except String (List β)
  | [] => .ok []
  | x :: xs => do
      let y ← g x
      let ys ← mapE g xs
      pure (y :: ys)

/-- The raw `parts[i + 1]` vector indexing of `parse_format_string`,
modelled as a checked lookup behind the source's `i + 1 < parts.len()`
bounds test (`rest` is the parts after position `i`). -/
def sepLookupChecked (rest : List FormatPart) :
    Except String (Option (List Char)) :=
  if 0 < rest.length then
    match rest[0]? with
    | some (FormatPart.separator s) => Except.ok (some s)
    | some _ => Except.ok none
    | none => Except.error "index out of bounds"
  else Except.ok none

/-- `buildFormats` with the separator lookup checked. -/
def buildFormatsChecked : List FormatPart → Except String (List ColumnFormat)
  | [] => .ok []
  | .format tok w :: rest => do
      let sep ← sepLookupChecked rest
      let tl ← buildFormatsChecked rest
      pure ({ format_type := classifyTok tok, width := w.bind parseUsize,
              separator := sep } :: tl)
  | .separator _ :: rest => buildFormatsChecked rest

/-- `parse_format_string` with its vector indexing checked. -/
def parse_format_string_checked (format_str : List Char) :
    Except String (List ColumnFormat) :=
  buildFormatsChecked (scan format_str (.text []))

/-- One cell line with the raw `item_lines[line_idx]` indexing (behind the
source's `line_idx < item_lines.len()` test) and the
`column_width - line_len` usize subtraction (behind the source's
`line_len > column_width` test) modelled as checked operations. -/
def cellLineChecked (formats : List ColumnFormat) (items : List FormattableItem)
    (j i : Nat) : Except String (List Char) :=
  let w := widthAt formats items j
  let cell := (cellsOf formats items).getD j []
  if i < cell.length then
    match cell[i]? with
    | none => Except.error "index out of bounds"
    | some line =>
        if w < line.length then Except.ok (line.take w)
        else if line.length ≤ w then
          Except.ok (line ++ List.replicate (w - line.length) ' ')
        else Except.error "attempt to subtract with overflow"
  else Except.ok (List.replicate w ' ')

/-- The separator emission with the raw `self.formats[item_idx]` indexing
modelled as a checked lookup. -/
def sepAfterChecked (formats : List ColumnFormat) (n j : Nat) :
    Except String (List Char) :=
  if j < n - 1 then
    match formats[j]? with
    | some f => Except.ok (f.separator.getD [])
    | none => Except.error "index out of bounds"
  else Except.ok []

/-- One output row, assembled from checked cell lines and separators. -/
def rowAtChecked (formats : List ColumnFormat) (items : List FormattableItem)
    (i : Nat) : Except String (List Char) := do
  let cols ← mapE (fun j => do
      let l ← cellLineChecked formats items j i
      let s ← sepAfterChecked formats (numItems formats items) j
      pure (l ++ s))
    (List.range (numItems formats items))
  pure cols.flatten

/-- `format_columns` with every raw indexing and usize subtraction of the
source modelled as a checked operation. -/
def format_columns_checked (formats : List ColumnFormat)
    (items : List FormattableItem) : Except String (List Char) :=
  if numItems formats items = 0 then Except.ok []
  else do
    let rows ← mapE (rowAtChecked formats items)
      (List.range (maxLinesOf (cellsOf formats items)))
    pure ((rows.map (fun r => r ++ ['\n'])).flatten)

lemma startsWithSeq_iff (p : List Char) : ∀ l, startsWithSeq p l = true ↔ p <+: l := by
  induction p with
  | nil => intro l; simp [startsWithSeq]
  | cons a ps ih =>
    intro l
    cases l with
    | nil => simp [startsWithSeq]
    | cons b ls =>
      simp only [startsWithSeq, Bool.and_eq_true, beq_iff_eq, ih,
        List.cons_prefix_cons]

lemma containsSub_iff (p : List Char) : ∀ l, containsSub p l = true ↔ p <:+: l := by
  intro l
  induction l with
  | nil => simp [containsSub, List.isEmpty_iff]
  | cons c rest ih =>
    simp only [containsSub, Bool.or_eq_true, startsWithSeq_iff, ih,
      List.infix_cons_iff]

lemma containsSub_brace (p mid : List Char) (hp : p ≠ []) (h1 : '{' ∉ p)
    (h2 : '}' ∉ p) :
    containsSub p ('{' :: mid ++ ['}']) = containsSub p mid := by
  rw [Bool.eq_iff_iff, containsSub_iff, containsSub_iff]
  constructor
  · rintro ⟨s, t, hst⟩
    cases s with
    | nil =>
      cases p with
      | nil => exact absurd rfl hp
      | cons pa p2 =>
        simp only [List.nil_append, List.cons_append] at hst
        exact absurd (List.head_eq_of_cons_eq hst ▸ List.mem_cons_self pa p2) h1
    | cons b s2 =>
      simp only [List.cons_append] at hst
      have hrest : s2 ++ p ++ t = mid ++ ['}'] := List.tail_eq_of_cons_eq hst
      rcases List.eq_nil_or_concat t with rfl | ⟨t2, tb, rfl⟩
      · rcases List.eq_nil_or_concat p with rfl | ⟨p2, pl, rfl⟩
        · exact absurd rfl hp
        · simp only [List.append_nil, List.concat_eq_append, ← List.append_assoc] at hrest
          obtain ⟨-, hl⟩ := List.append_inj' hrest rfl
          have hpl : pl = '}' := by simpa using hl
          have hmemp : pl ∈ p2.concat pl := by simp
          exact absurd (hpl ▸ hmemp) h2
      · simp only [List.concat_eq_append, ← List.append_assoc] at hrest
        obtain ⟨hm, -⟩ := List.append_inj' hrest rfl
        exact ⟨s2, t2, by simpa [List.append_assoc] using hm⟩
  · rintro ⟨s, t, rfl⟩
    exact ⟨'{' :: s, t ++ ['}'], by simp⟩

lemma scan_text_append (pre : List Char) (h : '{' ∉ pre) :
    ∀ (rest seg : List Char),
      scan (pre ++ rest) (.text seg) = scan rest (.text (pre.reverse ++ seg)) := by
  induction pre with
  | nil => intro rest seg; simp
  | cons c cs ih =>
    intro rest seg
    have hc : ¬ c = '{' := fun hh => h (hh ▸ List.mem_cons_self c cs)
    simp only [List.cons_append, scan, if_neg hc]
    show scan (cs ++ rest) (ScanState.text (c :: seg)) =
      scan rest (ScanState.text ((c :: cs).reverse ++ seg))
    rw [ih (fun hm => h (List.mem_cons_of_mem c hm)) rest (c :: seg)]
    simp [List.append_assoc]

lemma scan_width_append (ds : List Char) (h : ∀ c ∈ ds, c.isDigit = true) :
    ∀ (rest tok acc : List Char),
      scan (ds ++ rest) (.width tok acc) =
        scan rest (.width tok (ds.reverse ++ acc)) := by
  induction ds with
  | nil => intro rest tok acc; simp
  | cons c cs ih =>
    intro rest tok acc
    have hc : c.isDigit = true := h c (List.mem_cons_self c cs)
    simp only [List.cons_append, scan, if_pos hc]
    show scan (cs ++ rest) (ScanState.width tok (c :: acc)) =
      scan rest (ScanState.width tok ((c :: cs).reverse ++ acc))
    rw [ih (fun x hx => h x (List.mem_cons_of_mem c hx)) rest tok (c :: acc)]
    simp [List.append_assoc]

lemma scan_format_shape : ∀ (cs : List Char) (st : ScanState), stInv st →
    ∀ tok w, FormatPart.format tok w ∈ scan cs st →
      ∃ mid, tok = '{' :: mid ++ ['}'] := by
  intro cs
  induction cs with
  | nil =>
    intro st hst tok w hmem
    cases st with
    | text seg => cases hseg : seg.isEmpty <;> simp [scan, hseg] at hmem
    | inTok seg => cases hseg : seg.isEmpty <;> simp [scan, hseg] at hmem
    | closed tok0 =>
      simp only [scan, List.mem_singleton, FormatPart.format.injEq] at hmem
      exact hmem.1 ▸ hst
    | width tok0 ds =>
      simp only [scan, List.mem_singleton, FormatPart.format.injEq] at hmem
      exact hmem.1 ▸ hst
  | cons c rest ih =>
    intro st hst tok w hmem
    cases st with
    | text seg =>
      by_cases hc : c = '{'
      · rw [scan, if_pos hc] at hmem
        rcases List.mem_append.mp hmem with hl | hr
        · cases hseg : seg.isEmpty <;> simp [hseg] at hl
        · exact ih (.inTok ['{']) ⟨[], rfl⟩ tok w hr
      · rw [scan, if_neg hc] at hmem
        exact ih (.text (c :: seg)) trivial tok w hmem
    | inTok seg =>
      obtain ⟨s, rfl⟩ := hst
      by_cases hc : c = '}'
      · rw [scan, if_pos hc] at hmem
        refine ih (.closed ((c :: (s ++ ['{'])).reverse)) ?_ tok w hmem
        exact ⟨s.reverse, by simp [hc]⟩
      · rw [scan, if_neg hc] at hmem
        exact ih (.inTok (c :: (s ++ ['{']))) ⟨c :: s, rfl⟩ tok w hmem
    | closed tok0 =>
      by_cases hc : c = ':'
      · rw [scan, if_pos hc] at hmem
        exact ih (.width tok0 []) hst tok w hmem
      · by_cases hb : c = '{'
        · rw [scan, if_neg hc, if_pos hb] at hmem
          rcases List.mem_cons.mp hmem with he | hr
          · exact (FormatPart.format.injEq .. ▸ he).1 ▸ hst
          · exact ih (.inTok ['{']) ⟨[], rfl⟩ tok w hr
        · rw [scan, if_neg hc, if_neg hb] at hmem
          rcases List.mem_cons.mp hmem with he | hr
          · exact (FormatPart.format.injEq .. ▸ he).1 ▸ hst
          · exact ih (.text [c]) trivial tok w hr
    | width tok0 ds =>
      by_cases hc : c.isDigit = true
      · rw [scan, if_pos hc] at hmem
        exact ih (.width tok0 (c :: ds)) hst tok w hmem
      · by_cases hb : c = '{'
        · rw [scan, if_neg hc, if_pos hb] at hmem
          rcases List.mem_cons.mp hmem with he | hr
          · exact (FormatPart.format.injEq .. ▸ he).1 ▸ hst
          · exact ih (.inTok ['{']) ⟨[], rfl⟩ tok w hr
        · rw [scan, if_neg hc, if_neg hb] at hmem
          rcases List.mem_cons.mp hmem with he | hr
          · exact (FormatPart.format.injEq .. ▸ he).1 ▸ hst
          · exact ih (.text [c]) trivial tok w hr

lemma buildFormats_types (parts : List FormatPart) :
    (buildFormats parts).map (·.format_type) =
      (parts.filterMap partTok).map classifyTok := by
  induction parts with
  | nil => rfl
  | cons p rest ih => cases p <;> simp [buildFormats, partTok, ih]

lemma classifyTok_brace (mid : List Char) :
    classifyTok ('{' :: mid ++ ['}']) = specModeOfInner mid := by
  rw [classifyTok, specModeOfInner,
    containsSub_brace ":#?".toList mid (by decide) (by decide) (by decide),
    containsSub_brace ":?".toList mid (by decide) (by decide) (by decide)]

/-- C1: for every format token produced by parsing a template, the mode is
classified by substring containment on the token's inner text: `:#?`
anywhere gives `PrettyDebug`, else `:?` anywhere gives `Debug`, otherwise
`Display`. -/
theorem mode_classified_by_inner_text (cs : List Char) :
    (parse_format_string cs).map (·.format_type) =
      (tokensOf cs).map (fun tok => specModeOfInner ((tok.drop 1).dropLast)) := by
  rw [parse_format_string, buildFormats_types]
  apply List.map_congr_left
  intro tok hmem
  rw [List.mem_filterMap] at hmem
  obtain ⟨part, hpart, htok⟩ := hmem
  obtain ⟨tok0, w, rfl⟩ : ∃ t w, part = FormatPart.format t w := by
    cases part with
    | format t w => exact ⟨t, w, rfl⟩
    | separator s => simp [partTok] at htok
  obtain rfl : tok0 = tok := by simpa [partTok] using htok
  obtain ⟨mid, rfl⟩ := scan_format_shape cs (.text []) trivial tok0 w hpart
  rw [classifyTok_brace]
  simp [List.dropLast_concat]

/-- C9: a capability mismatch never errors: a Display-capable value
requested in Debug or PrettyDebug mode renders via its Display text, and a
Debug-capable value requested in Display mode renders via its Debug text. -/
theorem capability_mismatch_falls_back (s d p : List Char) :
    renderItem .debug (.displayItem s) = s ∧
    renderItem .prettyDebug (.displayItem s) = s ∧
    renderItem .display (.debugItem d p) = d :=
  ⟨rfl, rfl, rfl⟩

/-- C2 (divergence witness): the template with an in-brace width `{:5}`
parses to a first descriptor with no explicit width, so the render of the
Display values `ab` and `x` is `ab | x` plus a newline, not the claimed
output with the first column padded to width 5. -/
theorem inbrace_width_is_ignored :
    format_columns
        (parse_format_string ['{', ':', '5', '}', ' ', '|', ' ', '{', '}'])
        [.displayItem "ab".toList, .displayItem "x".toList] = "ab | x\n".toList ∧
      (parse_format_string ['{', ':', '5', '}', ' ', '|', ' ', '{', '}']).map
          (·.width) = [none, none] ∧
      format_columns
          (parse_format_string ['{', ':', '5', '}', ' ', '|', ' ', '{', '}'])
          [.displayItem "ab".toList, .displayItem "x".toList] ≠
        "ab    | x\n".toList := by
  refine ⟨by decide, by decide, by decide⟩

lemma widthAt_eq (formats : List ColumnFormat) (items : List FormattableItem)
    (j : Nat) (hj : j < numItems formats items) :
    widthAt formats items j =
      ((formats.getD j ⟨.display, none, none⟩).width).getD
        (maxNat (((cellsOf formats items).getD j []).map List.length)) := by
  rw [widthAt, widthsOf, columnWidthsOf, List.getD_eq_getElem?_getD,
    List.getElem?_map, List.getElem?_range hj]
  rfl

lemma cells_getElem? (formats : List ColumnFormat) (items : List FormattableItem)
    (j : Nat) (hj : j < numItems formats items) :
    (cellsOf formats items)[j]? =
      some (linesOf (renderItem
        ((formats.getD j ⟨.display, none, none⟩).format_type)
        (items.getD j (.displayItem [])))) := by
  have hf : j < formats.length := lt_of_lt_of_le hj (min_le_left ..)
  have hi : j < items.length := lt_of_lt_of_le hj (min_le_right ..)
  have hz : j < (formats.zip items).length := by
    rw [List.length_zip]
    exact lt_min hf hi
  rw [cellsOf, List.getElem?_map, List.getElem?_take, if_pos hj,
    List.getElem?_eq_getElem hz, List.getElem_zip]
  rw [List.getD_eq_getElem?_getD, List.getElem?_eq_getElem hf,
    List.getD_eq_getElem?_getD, List.getElem?_eq_getElem hi]
  rfl

/-- C5: every emitted cell line has scalar length exactly the column's
width: a longer line is truncated to the leading `width` scalars, a
shorter one is right-padded with spaces, and a missing line is all
spaces. -/
theorem cell_line_fits_width (formats : List ColumnFormat)
    (items : List FormattableItem) (j i : Nat) :
    ((cellLine formats items j i).length = widthAt formats items j) ∧
    (∀ line, ((cellsOf formats items).getD j [])[i]? = some line →
      widthAt formats items j ≤ line.length →
      cellLine formats items j i = line.take (widthAt formats items j)) ∧
    (∀ line, ((cellsOf formats items).getD j [])[i]? = some line →
      line.length ≤ widthAt formats items j →
      cellLine formats items j i =
        line ++ List.replicate (widthAt formats items j - line.length) ' ') ∧
    (((cellsOf formats items).getD j [])[i]? = none →
      cellLine formats items j i = List.replicate (widthAt formats items j) ' ') := by
  refine ⟨?_, ?_, ?_, ?_⟩
  · rcases h : ((cellsOf formats items).getD j [])[i]? with _ | line
    · simp only [cellLine, h, List.length_replicate]
    · simp only [cellLine, h, fitLine]
      split
      · rw [List.length_take]
        omega
      · rw [List.length_append, List.length_replicate]
        omega
  · intro line hline hw
    simp only [cellLine, hline, fitLine]
    by_cases hlt : widthAt formats items j < line.length
    · rw [if_pos hlt]
    · have heq : widthAt formats items j = line.length := by omega
      rw [if_neg hlt, heq, Nat.sub_self, List.replicate_zero, List.append_nil,
        List.take_length]
  · intro line hline hw
    simp only [cellLine, hline, fitLine]
    rw [if_neg (by omega)]
  · intro h
    simp only [cellLine, h]

/-- C5 witness: concrete truncation, padding and blank-line instances. -/
theorem cell_line_fits_width_witness :
    (cellLine [⟨.display, some 2, none⟩] [.displayItem "abcd".toList] 0 0).length =
        widthAt [⟨.display, some 2, none⟩] [.displayItem "abcd".toList] 0 ∧
    cellLine [⟨.display, some 2, none⟩] [.displayItem "abcd".toList] 0 0 =
        "abcd".toList.take 2 ∧
    cellLine [⟨.display, some 3, none⟩] [.displayItem "a".toList] 0 0 =
        "a".toList ++ List.replicate 2 ' ' ∧
    cellLine [⟨.display, some 2, none⟩] [.displayItem "abcd".toList] 0 1 =
        List.replicate 2 ' ' := by
  refine ⟨(cell_line_fits_width _ _ 0 0).1, ?_, ?_, ?_⟩
  · exact (cell_line_fits_width
      [⟨.display, some 2, none⟩] [.displayItem "abcd".toList] 0 0).2.1
      "abcd".toList (by decide) (by decide)
  · exact (cell_line_fits_width
      [⟨.display, some 3, none⟩] [.displayItem "a".toList] 0 0).2.2.1
      "a".toList (by decide) (by decide)
  · exact (cell_line_fits_width
      [⟨.display, some 2, none⟩] [.displayItem "abcd".toList] 0 1).2.2.2
      (by decide)

/-- C6: the number of output rows is the maximum line count over the
rendered cells; output is empty when no columns render or all cells are
empty; a column whose cell lacks a row contributes an all-space line of
its full width. -/
theorem row_count_and_blank_padding (formats : List ColumnFormat)
    (items : List FormattableItem) :
    (numItems formats items = 0 → format_columns formats items = []) ∧
    (numItems formats items ≠ 0 →
      (rowsOf formats items).length = maxLinesOf (cellsOf formats items)) ∧
    (maxLinesOf (cellsOf formats items) = 0 → format_columns formats items = []) ∧
    (∀ j i, j < numItems formats items →
      ((cellsOf formats items).getD j []).length ≤ i →
      cellLine formats items j i = List.replicate (widthAt formats items j) ' ') := by
  refine ⟨?_, ?_, ?_, ?_⟩
  · intro h
    rw [format_columns, rowsOf, if_pos h]
    rfl
  · intro h
    rw [rowsOf, if_neg h, List.length_map, List.length_range]
  · intro h
    rw [format_columns, rowsOf]
    split
    · rfl
    · rw [h]
      rfl
  · intro j i hj hi
    have hnone : ((cellsOf formats items).getD j [])[i]? = none :=
      List.getElem?_eq_none hi
    simp only [cellLine, hnone]

/-- C6 witness: an empty call, a two-column ragged call, and an
all-empty-cells call. -/
theorem row_count_and_blank_padding_witness :
    format_columns [] [] = [] ∧
    (rowsOf [⟨.display, none, none⟩, ⟨.display, none, none⟩]
        [.displayItem "a\nb".toList, .displayItem "x".toList]).length =
      maxLinesOf (cellsOf [⟨.display, none, none⟩, ⟨.display, none, none⟩]
        [.displayItem "a\nb".toList, .displayItem "x".toList]) ∧
    format_columns [⟨.display, none, none⟩] [.displayItem []] = [] ∧
    cellLine [⟨.display, none, none⟩, ⟨.display, none, none⟩]
        [.displayItem "a\nb".toList, .displayItem "x".toList] 1 1 =
      List.replicate (widthAt [⟨.display, none, none⟩, ⟨.display, none, none⟩]
        [.displayItem "a\nb".toList, .displayItem "x".toList] 1) ' ' := by
  refine ⟨(row_count_and_blank_padding [] []).1 rfl, ?_, ?_, ?_⟩
  · exact (row_count_and_blank_padding _ _).2.1 (by decide)
  · exact (row_count_and_blank_padding [⟨.display, none, none⟩]
      [.displayItem []]).2.2.1 (by decide)
  · exact (row_count_and_blank_padding _ _).2.2.2 1 1 (by decide) (by decide)

/-- C7: exactly `min(len(descriptors), len(values))` columns render,
paired strictly by position; excess descriptors or values are dropped and
no error is possible. -/
theorem columns_paired_by_position (formats : List ColumnFormat)
    (items : List FormattableItem) :
    (cellsOf formats items).length = min formats.length items.length ∧
    (∀ j, j < min formats.length items.length →
      (cellsOf formats items).getD j [] =
        linesOf (renderItem
          ((formats.getD j ⟨.display, none, none⟩).format_type)
          (items.getD j (.displayItem [])))) := by
  constructor
  · rw [cellsOf, List.length_map, List.length_take, List.length_zip, numItems]
    omega
  · intro j hj
    rw [List.getD_eq_getElem?_getD,
      cells_getElem? formats items j (by simpa [numItems] using hj)]
    rfl

/-- C7 witness: three descriptors and two values render exactly two
columns, the first pairing descriptor 0 with value 0. -/
theorem columns_paired_by_position_witness :
    (cellsOf [⟨.debug, none, none⟩, ⟨.display, none, none⟩, ⟨.display, none, none⟩]
        [.debugItem "d0".toList "p0".toList, .displayItem "s1".toList]).length =
      min (List.length ([⟨.debug, none, none⟩, ⟨.display, none, none⟩,
          ⟨.display, none, none⟩] : List ColumnFormat))
        (List.length [FormattableItem.debugItem "d0".toList "p0".toList,
          .displayItem "s1".toList]) ∧
    (cellsOf [⟨.debug, none, none⟩, ⟨.display, none, none⟩, ⟨.display, none, none⟩]
        [.debugItem "d0".toList "p0".toList, .displayItem "s1".toList]).getD 0 [] =
      linesOf (renderItem FormatType.debug (.debugItem "d0".toList "p0".toList)) := by
  refine ⟨(columns_paired_by_position _ _).1, ?_⟩
  exact (columns_paired_by_position
    [⟨.debug, none, none⟩, ⟨.display, none, none⟩, ⟨.display, none, none⟩]
    [.debugItem "d0".toList "p0".toList, .displayItem "s1".toList]).2 0 (by decide)

lemma scan_nil_text (seg : List Char) :
    scan [] (.text seg) = if seg.isEmpty then [] else [.separator seg.reverse] := rfl

lemma scan_nil_closed (tok : List Char) :
    scan [] (.closed tok) = [.format tok none] := rfl

lemma scan_nil_width (tok ds : List Char) :
    scan [] (.width tok ds) = [.format tok (some ds.reverse)] := rfl

lemma scan_text_open (rest seg : List Char) :
    scan ('{' :: rest) (.text seg) =
      (if seg.isEmpty then [] else [.separator seg.reverse]) ++
        scan rest (.inTok ['{']) := by
  simp [scan]

lemma scan_inTok_close (rest seg : List Char) :
    scan ('}' :: rest) (.inTok seg) =
      scan rest (.closed (seg.reverse ++ ['}'])) := by
  simp [scan]

lemma scan_inTok_cons (c : Char) (hc : c ≠ '}') (rest seg : List Char) :
    scan (c :: rest) (.inTok seg) = scan rest (.inTok (c :: seg)) := by
  simp [scan, hc]

lemma scan_closed_colon (rest tok : List Char) :
    scan (':' :: rest) (.closed tok) = scan rest (.width tok []) := by
  simp [scan]

lemma scan_closed_open (rest tok : List Char) :
    scan ('{' :: rest) (.closed tok) =
      .format tok none :: scan rest (.inTok ['{']) := by
  simp [scan]

lemma scan_closed_cons (c : Char) (h1 : c ≠ ':') (h2 : c ≠ '{')
    (rest tok : List Char) :
    scan (c :: rest) (.closed tok) =
      .format tok none :: scan rest (.text [c]) := by
  simp [scan, h1, h2]

lemma scan_width_open (rest tok ds : List Char) :
    scan ('{' :: rest) (.width tok ds) =
      .format tok (some ds.reverse) :: scan rest (.inTok ['{']) := by
  simp [scan]

lemma scan_width_stop (c : Char) (h1 : c.isDigit = false) (h2 : c ≠ '{')
    (rest tok ds : List Char) :
    scan (c :: rest) (.width tok ds) =
      .format tok (some ds.reverse) :: scan rest (.text [c]) := by
  simp [scan, h1, h2]

lemma scan_text_noBrace (l : List Char) (h : '{' ∉ l) (seg : List Char) :
    scan l (.text seg) =
      if (l.reverse ++ seg).isEmpty then []
      else [.separator (l.reverse ++ seg).reverse] := by
  conv_lhs => rw [← List.append_nil l]
  rw [scan_text_append l h [] seg]
  rfl

lemma buildFormats_sepIf (s : List Char) (rest : List FormatPart) :
    buildFormats ((if s.isEmpty then [] else [.separator s.reverse]) ++ rest) =
      buildFormats rest := by
  split
  · rfl
  · rfl

/-- C3 (amended form): literal text strictly between two format tokens is
attached as the first token's separator; text before the first token is
attached to no descriptor. -/
theorem separators_between_tokens (pre mid post : List Char)
    (h1 : '{' ∉ pre) (h2 : '{' ∉ mid) (h3 : '{' ∉ post)
    (h4 : mid.head? ≠ some ':') (h5 : post.head? ≠ some ':') :
    parse_format_string
        (pre ++ '{' :: '}' :: mid ++ '{' :: ':' :: '?' :: '}' :: post) =
      [⟨.display, none, if mid = [] then none else some mid⟩,
       ⟨.debug, none, if post = [] then none else some post⟩] := by
  have ht1 : classifyTok ['{', '}'] = FormatType.display := by decide
  have ht2 : classifyTok ['{', ':', '?', '}'] = FormatType.debug := by decide
  have hTok2in : scan (':' :: '?' :: '}' :: post) (.inTok ['{']) =
      .format (List.reverse ['?', ':', '{'] ++ ['}']) none ::
        (if post.isEmpty then [] else [.separator post]) := by
    rw [scan_inTok_cons ':' (by decide), scan_inTok_cons '?' (by decide),
      scan_inTok_close]
    rcases post with _ | ⟨p0, post2⟩
    · rfl
    · have hp0c : p0 ≠ ':' := fun he => h5 (by simp [he])
      have hp0b : p0 ≠ '{' := fun he => h3 (he ▸ List.mem_cons_self p0 post2)
      have h3t : '{' ∉ post2 := fun hm => h3 (List.mem_cons_of_mem p0 hm)
      rw [scan_closed_cons p0 hp0c hp0b, scan_text_noBrace post2 h3t [p0]]
      simp [List.reverse_append]
  rw [parse_format_string, List.append_assoc, List.cons_append, List.cons_append,
    scan_text_append pre h1 _ [], scan_text_open, scan_inTok_close]
  rcases mid with _ | ⟨m, mid2⟩
  · rw [List.nil_append, scan_closed_open, hTok2in, buildFormats_sepIf]
    rcases post with _ | ⟨p0, post2⟩ <;> simp [buildFormats, ht1, ht2]
  · have hm1 : m ≠ ':' := fun he => h4 (by simp [he])
    have hm2 : m ≠ '{' := fun he => h2 (he ▸ List.mem_cons_self m mid2)
    have h2t : '{' ∉ mid2 := fun hm => h2 (List.mem_cons_of_mem m hm)
    rw [List.cons_append, scan_closed_cons m hm1 hm2,
      scan_text_append mid2 h2t _ [m], scan_text_open, hTok2in,
      buildFormats_sepIf]
    rcases post with _ | ⟨p0, post2⟩ <;>
      simp [buildFormats, ht1, ht2, List.reverse_append]

/-- C3 witness: a template with leading, middle and trailing literal text. -/
theorem separators_between_tokens_witness :
    parse_format_string
        ("a".toList ++ '{' :: '}' :: "b".toList ++
          '{' :: ':' :: '?' :: '}' :: "c".toList) =
      [⟨.display, none, if "b".toList = [] then none else some "b".toList⟩,
       ⟨.debug, none, if "c".toList = [] then none else some "c".toList⟩] :=
  separators_between_tokens "a".toList "b".toList "c".toList
    (by decide) (by decide) (by decide) (by decide) (by decide)

/-- C3 counterexample: template text after the last format token is
attached as the last descriptor's separator, contrary to the claim. -/
theorem trailing_text_attached_counterexample :
    (parse_format_string (['{', '}'] ++ "abc".toList)).map (·.separator) =
        [some "abc".toList] ∧
      (parse_format_string (['{', '}'] ++ "abc".toList)).map (·.separator) ≠
        [none] := by
  refine ⟨by decide, by decide⟩

/-- C4 (amended form): a `:` immediately after a closing `}` is always
consumed, together with the maximal (possibly empty) digit run after it;
the consumed text never appears in separator text, and the width is the
successful parse of the digit run. -/
theorem colon_after_brace_consumed (ds rest : List Char)
    (h1 : ∀ c ∈ ds, c.isDigit = true)
    (h2 : ∀ c, rest.head? = some c → c.isDigit = false)
    (h3 : '{' ∉ rest) :
    parse_format_string ('{' :: '}' :: ':' :: (ds ++ rest ++ ['{', '}'])) =
      [⟨.display, parseUsize ds, if rest = [] then none else some rest⟩,
       ⟨.display, none, none⟩] := by
  have ht1 : classifyTok ['{', '}'] = FormatType.display := by decide
  rw [parse_format_string, scan_text_open, scan_inTok_close, scan_closed_colon]
  rw [show ds ++ rest ++ ['{', '}'] = ds ++ (rest ++ ['{', '}']) from
    List.append_assoc ds rest ['{', '}']]
  rw [scan_width_append ds h1]
  rcases rest with _ | ⟨r0, rest2⟩
  · rw [List.nil_append, scan_width_open, scan_inTok_close, scan_nil_closed]
    simp [buildFormats, ht1]
  · have hr0d : r0.isDigit = false := h2 r0 (by simp)
    have hr0b : r0 ≠ '{' := fun he => h3 (he ▸ List.mem_cons_self r0 rest2)
    have h3t : '{' ∉ rest2 := fun hm => h3 (List.mem_cons_of_mem r0 hm)
    rw [List.cons_append, scan_width_stop r0 hr0d hr0b,
      scan_text_append rest2 h3t _ [r0], scan_text_open, scan_inTok_close,
      scan_nil_closed]
    simp [buildFormats, ht1, List.reverse_append]

/-- C4 witness: the template with suffix `:7` and separator `|`. -/
theorem colon_after_brace_consumed_witness :
    parse_format_string ('{' :: '}' :: ':' :: (['7'] ++ ['|'] ++ ['{', '}'])) =
      [⟨.display, parseUsize ['7'], if ['|'] = ([] : List Char) then none
          else some ['|']⟩,
       ⟨.display, none, none⟩] :=
  colon_after_brace_consumed ['7'] ['|'] (by decide) (by decide) (by decide)

/-- C4 counterexample: after `{}` the `:` of `:a` is consumed even though
no digit follows, so the first separator is `a`, not `:a` as the claim
requires. -/
theorem colon_without_digits_counterexample :
    (parse_format_string ['{', '}', ':', 'a', '{', '}']).map (·.separator) =
        [some ['a'], none] ∧
      (parse_format_string ['{', '}', ':', 'a', '{', '}']).map (·.separator) ≠
        [some [':', 'a'], none] := by
  refine ⟨by decide, by decide⟩

/-- C8 (amended form): a width suffix `:N` after a closing brace sets the
descriptor's width to `N` whenever `N` fits in `usize` (a larger run fails
to parse, leaving the width `None`); with no suffix the width is `None`;
at render time a column with width `None` gets its own maximal scalar line
length, and an explicit width is used as is. -/
theorem width_suffix_and_auto_width (ds : List Char)
    (formats : List ColumnFormat) (items : List FormattableItem) (j : Nat)
    (h1 : ds ≠ []) (h2 : ∀ c ∈ ds, c.isDigit = true)
    (h3 : digitsToNat ds ≤ usizeMax) :
    parse_format_string ('{' :: '}' :: ':' :: ds) =
        [⟨.display, some (digitsToNat ds), none⟩] ∧
    parse_format_string ['{', '}'] = [⟨.display, none, none⟩] ∧
    (j < numItems formats items →
      (formats.getD j ⟨.display, none, none⟩).width = none →
      widthAt formats items j =
        maxNat (((cellsOf formats items).getD j []).map List.length)) ∧
    (∀ w, j < numItems formats items →
      (formats.getD j ⟨.display, none, none⟩).width = some w →
      widthAt formats items j = w) := by
  refine ⟨?_, by decide, ?_, ?_⟩
  · rw [parse_format_string, scan_text_open, scan_inTok_close, scan_closed_colon]
    conv_lhs => rw [← List.append_nil ds]
    rw [scan_width_append ds h2, scan_nil_width]
    have hw : parseUsize ds = some (digitsToNat ds) := by
      rw [parseUsize, if_pos ⟨h1, List.all_eq_true.mpr h2, h3⟩]
    simp [buildFormats, hw,
      (by decide : classifyTok ['{', '}'] = FormatType.display)]
  · intro hj hw
    rw [widthAt_eq formats items j hj, hw]
    rfl
  · intro w hj hw
    rw [widthAt_eq formats items j hj, hw]
    rfl

/-- C8 witness: suffix `:42` gives width 42; auto width is the content
width 3; explicit width 7 overrides content width 3. -/
theorem width_suffix_and_auto_width_witness :
    parse_format_string ('{' :: '}' :: ':' :: ['4', '2']) =
        [⟨.display, some (digitsToNat ['4', '2']), none⟩] ∧
    widthAt [⟨.display, none, none⟩] [.displayItem "abc".toList] 0 =
      maxNat (((cellsOf [⟨.display, none, none⟩]
        [.displayItem "abc".toList]).getD 0 []).map List.length) ∧
    widthAt [⟨.display, some 7, none⟩] [.displayItem "abc".toList] 0 = 7 := by
  refine ⟨?_, ?_, ?_⟩
  · exact (width_suffix_and_auto_width ['4', '2'] [] [] 0
      (by decide) (by decide) (by decide)).1
  · exact (width_suffix_and_auto_width ['4', '2'] [⟨.display, none, none⟩]
      [.displayItem "abc".toList] 0 (by decide) (by decide) (by decide)).2.2.1
      (by decide) rfl
  · exact (width_suffix_and_auto_width ['4', '2'] [⟨.display, some 7, none⟩]
      [.displayItem "abc".toList] 0 (by decide) (by decide) (by decide)).2.2.2
      7 (by decide) rfl

/-- C8 counterexample: the 20-digit run 18446744073709551616 (that is,
2^64, one past `usize::MAX`) fails to parse, so the width is `None`, not
the integer the claim requires. -/
theorem width_overflow_counterexample :
    (parse_format_string (['{', '}', ':'] ++
        "18446744073709551616".toList)).map (·.width) = [none] ∧
      (parse_format_string (['{', '}', ':'] ++
        "18446744073709551616".toList)).map (·.width) ≠
        [some 18446744073709551616] := by
  refine ⟨by decide, by decide⟩

lemma mapE_ok {α β : Type} (g : α → Except String β) (f : α → β) (l : List α)
    (h : ∀ x ∈ l, g x = .ok (f x)) : mapE g l = .ok (l.map f) := by
  induction l with
  | nil => rfl
  | cons x xs ih =>
    have hx := h x (List.mem_cons_self x xs)
    have ht := ih (fun y hy => h y (List.mem_cons_of_mem x hy))
    simp only [mapE, List.map_cons]
    rw [hx, ht]
    rfl

lemma sepLookupChecked_ok (rest : List FormatPart) :
    sepLookupChecked rest =
      .ok (match rest.head? with
        | some (FormatPart.separator s) => some s
        | _ => none) := by
  cases rest with
  | nil => rfl
  | cons q rest2 => cases q <;> simp [sepLookupChecked]

lemma buildFormatsChecked_ok (parts : List FormatPart) :
    buildFormatsChecked parts = .ok (buildFormats parts) := by
  induction parts with
  | nil => rfl
  | cons p rest ih =>
    cases p with
    | format tok w =>
      simp only [buildFormatsChecked]
      rw [sepLookupChecked_ok, ih]
      rfl
    | separator s => simpa [buildFormatsChecked, buildFormats] using ih

lemma cellLineChecked_ok (formats : List ColumnFormat)
    (items : List FormattableItem) (j i : Nat) :
    cellLineChecked formats items j i = .ok (cellLine formats items j i) := by
  by_cases hi : i < ((cellsOf formats items).getD j []).length
  · have hline : ((cellsOf formats items).getD j [])[i]? =
        some (((cellsOf formats items).getD j [])[i]) :=
      List.getElem?_eq_getElem hi
    simp only [cellLineChecked, cellLine, if_pos hi, hline, fitLine]
    rw [apply_ite Except.ok]
    split
    · rfl
    · rename_i hA
      rw [if_pos (Nat.le_of_not_lt hA)]
  · have hnone : ((cellsOf formats items).getD j [])[i]? = none :=
      List.getElem?_eq_none (Nat.le_of_not_lt hi)
    simp only [cellLineChecked, cellLine, if_neg hi, hnone]

lemma sepAfterChecked_ok (formats : List ColumnFormat) (n j : Nat)
    (hn : n ≤ formats.length) :
    sepAfterChecked formats n j = .ok (sepAfter formats n j) := by
  by_cases hj : j < n - 1
  · have hjf : j < formats.length := by omega
    simp only [sepAfterChecked, sepAfter, if_pos hj,
      List.getElem?_eq_getElem hjf]
  · simp only [sepAfterChecked, sepAfter, if_neg hj]

lemma rowAtChecked_ok (formats : List ColumnFormat)
    (items : List FormattableItem) (i : Nat) :
    rowAtChecked formats items i = .ok (rowAt formats items i) := by
  rw [rowAtChecked, rowAt,
    mapE_ok _ (fun j => cellLine formats items j i ++
        sepAfter formats (numItems formats items) j) _ ?_]
  · rfl
  · intro j hj
    rw [cellLineChecked_ok,
      sepAfterChecked_ok formats (numItems formats items) j
        (min_le_left formats.length items.length)]
    rfl

/-- C10: parsing and rendering are total: the checked variants, in which
every raw vector indexing and usize subtraction of the source is modelled
as a failing operation behind its bounds test, never fail and return
exactly the results of the total functions. -/
theorem parse_and_render_total (cs : List Char) (formats : List ColumnFormat)
    (items : List FormattableItem) :
    parse_format_string_checked cs = Except.ok (parse_format_string cs) ∧
    format_columns_checked formats items =
      Except.ok (format_columns formats items) := by
  constructor
  · exact buildFormatsChecked_ok (scan cs (.text []))
  · rw [format_columns_checked, format_columns, rowsOf]
    by_cases h : numItems formats items = 0
    · rw [if_pos h, if_pos h]
      rfl
    · rw [if_neg h, if_neg h,
        mapE_ok _ (rowAt formats items) _
          (fun i _ => rowAtChecked_ok formats items i)]
      rfl

end Colprint
